import Mathlib

/-!
Verification development for the Synchronization & Notification Engine of the
whatsapp_frontend repository (src/src/App.tsx).  The TypeScript source is
shallowly embedded: React `useState` values become fields of explicit state
records, `setX(f(prev))` calls become pure state-transformer functions, and the
notification-detection block of `fetchData` becomes a pure `detect` step over
the per-type seen-identity sets held in `lastProcessedIds`.
-/

namespace WAF

/-- Notification category, the `type` field of `AppNotification`
(`'appointment' | 'diagnostic' | 'admission' | 'interaction'`). -/
inductive NType where
  | appointment
  | diagnostic
  | admission
  | interaction
deriving DecidableEq, Repr

/-- The `AppNotification` interface of App.tsx (the `type` field is named
`ntype` here). `timestamp` is seconds since epoch. -/
structure AppNotification where
  id : String
  ntype : NType
  title : String
  message : String
  timestamp : Int
  read : Bool
  patientName : Option String
  source : Option String
deriving DecidableEq, Repr

/-- The argument of `addNotification`: an `AppNotification` minus the locally
generated `id`, `timestamp` and `read` fields
(`Omit<AppNotification, 'id' | 'timestamp' | 'read'>`). -/
structure NotifDescr where
  ntype : NType
  title : String
  message : String
  patientName : Option String
  source : Option String
deriving DecidableEq, Repr

/-- The two notification-related state cells of the component:
`notifications` (the journal, newest first) and `toasts`. -/
structure NotifState where
  notifications : List AppNotification
  toasts : List AppNotification
deriving DecidableEq, Repr

/-- Source `[newNotif, ...prev].slice(0, 50)` — the journal update inside
`addNotification` (App.tsx line 239). -/
def appendJournal (prev : List AppNotification) (n : AppNotification) :
    List AppNotification :=
  (n :: prev).take 50

/-- The record built at the top of `addNotification`: spread of the descriptor
plus a fresh `id`, the current time, and `read: false`. -/
def mkNotif (d : NotifDescr) (freshId : String) (now : Int) : AppNotification :=
  { id := freshId
    ntype := d.ntype
    title := d.title
    message := d.message
    timestamp := now
    read := false
    patientName := d.patientName
    source := d.source }

/-- Source `addNotification` (App.tsx lines 232-246): prepend-and-truncate the
journal, append the same record to the toast list.  The 6-second auto-expiry
timeout is modelled separately by `expireToast`. -/
def addNotification (st : NotifState) (d : NotifDescr) (freshId : String)
    (now : Int) : NotifState :=
  { notifications := appendJournal st.notifications (mkNotif d freshId now)
    toasts := st.toasts ++ [mkNotif d freshId now] }

/-- The notification onClick handler (App.tsx line 639):
`prev.map(notif => notif.id === n.id ? \x7b ...notif, read: true \x7d : notif)`. -/
def markRead (j : List AppNotification) (i : String) : List AppNotification :=
  j.map (fun n => if n.id = i then { n with read := true } else n)

/-- Source `markAllAsRead` (App.tsx line 429). -/
def markAllAsRead (j : List AppNotification) : List AppNotification :=
  j.map (fun n => { n with read := true })

/-- Source `unreadCount = notifications.filter(n => !n.read).length` (line 432). -/
def unreadCount (j : List AppNotification) : Nat :=
  (j.filter (fun n => !n.read)).length

/-- Manual toast dismissal (App.tsx lines 1842 and 1867):
`setToasts(prev => prev.filter(t => t.id !== toast.id))`. -/
def dismissToast (st : NotifState) (i : String) : NotifState :=
  { st with toasts := st.toasts.filter (fun t => t.id ≠ i) }

/-- The auto-expiry timeout body (App.tsx line 244):
`setToasts(prev => prev.filter(t => t.id !== newNotif.id))` — the same filter
as manual dismissal. -/
def expireToast (st : NotifState) (i : String) : NotifState :=
  { st with toasts := st.toasts.filter (fun t => t.id ≠ i) }

/-- The `Appointment` interface of App.tsx. -/
structure Appointment where
  booking_id : String
  user_id : String
  patient_name : String
  phone : String
  department : String
  department_name : String
  doctor : String
  date : String
  time : String
  status : String
  source : String
  created_at : Int
deriving DecidableEq, Repr

/-- The `Diagnostic` interface of App.tsx. -/
structure Diagnostic where
  booking_id : String
  user_id : String
  patient_name : String
  phone : String
  test_type : String
  date : String
  time : String
  status : String
  created_at : Int
deriving DecidableEq, Repr

/-- The `Admission` interface of App.tsx. -/
structure Admission where
  admission_id : String
  user_id : String
  patient_name : String
  phone : String
  age : String
  sex : String
  admission_type : String
  preferred_date : String
  status : String
  created_at : Int
deriving DecidableEq, Repr

/-- One poll's worth of the three watched collections, as read from
`appointmentsRes.data`, `diagnosticsRes.data`, `admissionsRes.data`. -/
structure Snapshot where
  appointments : List Appointment
  diagnostics : List Diagnostic
  admissions : List Admission
deriving DecidableEq, Repr

/-- The `lastProcessedIds` ref: one set of already-processed identities per
watched resource type (the `interactions` counter of the ref is not read by
the detection block and is omitted).  JavaScript `Set<string>`s are modelled
as duplicate-free lists; only membership and emptiness are consulted. -/
structure SeenIds where
  appointments : List String
  diagnostics : List String
  admissions : List String
deriving DecidableEq, Repr

/-- The initial value of `lastProcessedIds`: three empty sets. -/
def initialSeen : SeenIds := ⟨[], [], []⟩

/-- JavaScript `Set.add`: insert an identity unless already present. -/
def insertId (s : List String) (x : String) : List String :=
  if x ∈ s then s else x :: s

/-- Descriptor passed to `addNotification` for a new appointment
(App.tsx lines 299-305). -/
def mkApptDescr (a : Appointment) : NotifDescr :=
  { ntype := .appointment
    title := "New Appointment"
    message := a.patient_name ++ " booked for " ++ a.doctor ++ " at " ++ a.time
    patientName := some a.patient_name
    source := some a.source }

/-- Descriptor passed to `addNotification` for a new diagnostic booking
(App.tsx lines 313-319). -/
def mkDiagDescr (d : Diagnostic) : NotifDescr :=
  { ntype := .diagnostic
    title := "New Diagnostic Booking"
    message := d.patient_name ++ " requested a " ++ d.test_type
    patientName := some d.patient_name
    source := some "whatsapp" }

/-- Descriptor passed to `addNotification` for a new admission request
(App.tsx lines 327-333). -/
def mkAdmDescr (a : Admission) : NotifDescr :=
  { ntype := .admission
    title := "New Admission Request"
    message := a.patient_name ++ " (" ++ a.admission_type ++ ")"
    patientName := some a.patient_name
    source := some "whatsapp" }

/-- A detection event: the resource type and identity of the record that
triggered it, together with the descriptor handed to `addNotification`. -/
structure Event where
  rtype : NType
  rid : String
  descr : NotifDescr
deriving DecidableEq, Repr

/-- One `forEach` loop of the detection block: walk the fetched records in
order; for each record whose identity is absent from the seen set, add the
identity and emit one event. -/
def detectLoop (getId : α → String) (mk : α → NotifDescr) (t : NType)
    (seen : List String) : List α → List String × List Event
  | [] => (seen, [])
  | r :: rs =>
    if getId r ∈ seen then
      detectLoop getId mk t seen rs
    else
      let p := detectLoop getId mk t (getId r :: seen) rs
      (p.1, ⟨t, getId r, mk r⟩ :: p.2)

/-- The notification-detection block of `fetchData` (App.tsx lines 289-336).
If the appointments seen-set is empty (`lastProcessedIds.current.appointments
.size === 0`), all three sets are populated from the snapshot and nothing is
emitted; otherwise the three record lists are diffed in order (appointments,
diagnostics, admissions). -/
def detect (seen : SeenIds) (snap : Snapshot) : SeenIds × List Event :=
  if seen.appointments.isEmpty then
    (⟨snap.appointments.foldl (fun s a => insertId s a.booking_id) seen.appointments,
      snap.diagnostics.foldl (fun s d => insertId s d.booking_id) seen.diagnostics,
      snap.admissions.foldl (fun s a => insertId s a.admission_id) seen.admissions⟩,
     [])
  else
    let pa := detectLoop (fun a => a.booking_id) mkApptDescr .appointment
      seen.appointments snap.appointments
    let pd := detectLoop (fun d => d.booking_id) mkDiagDescr .diagnostic
      seen.diagnostics snap.diagnostics
    let pm := detectLoop (fun a => a.admission_id) mkAdmDescr .admission
      seen.admissions snap.admissions
    (⟨pa.1, pd.1, pm.1⟩, pa.2 ++ pd.2 ++ pm.2)

/-- Identities of a snapshot for one resource type (`booking_id` for
appointments and diagnostics, `admission_id` for admissions; the interaction
feed is not identity-diffed). -/
def idsOf (t : NType) (snap : Snapshot) : List String :=
  match t with
  | .appointment => snap.appointments.map (fun a => a.booking_id)
  | .diagnostic => snap.diagnostics.map (fun d => d.booking_id)
  | .admission => snap.admissions.map (fun a => a.admission_id)
  | .interaction => []

/-- The seen set of one resource type. -/
def setsFor (seen : SeenIds) (t : NType) : List String :=
  match t with
  | .appointment => seen.appointments
  | .diagnostic => seen.diagnostics
  | .admission => seen.admissions
  | .interaction => []

/-- Run successive detection passes, returning the per-pass event lists. -/
def runDetect (seen : SeenIds) : List Snapshot → List (List Event)
  | [] => []
  | s :: rest => (detect seen s).2 :: runDetect (detect seen s).1 rest

/-- The seen-set state after running detection over a snapshot sequence. -/
def seenAfterRun (seen : SeenIds) : List Snapshot → SeenIds
  | [] => seen
  | s :: rest => seenAfterRun (detect seen s).1 rest

/-- Positional lookup in a list. -/
def nth : List α → Nat → Option α
  | [], _ => none
  | a :: _, 0 => some a
  | _ :: l, n + 1 => nth l n

/-- Events emitted during the detection pass over the (j+1)-st snapshot of a
sequence processed from the engine's initial state. -/
def eventsAt (snaps : List Snapshot) (j : Nat) : List Event :=
  (nth (runDetect initialSeen snaps) j).getD []

/-- How many events in a list reference identity `x` of resource type `t`. -/
def refCount (t : NType) (x : String) (evs : List Event) : Nat :=
  evs.countP (fun e => decide (e.rtype = t ∧ e.rid = x))

/-- Index of the first snapshot of a sequence whose records include identity
`x` of resource type `t`. -/
def firstAppear (t : NType) (x : String) : List Snapshot → Option Nat
  | [] => none
  | s :: rest =>
    if x ∈ idsOf t s then some 0 else (firstAppear t x rest).map (· + 1)

/-- The `Stats` interface of App.tsx; `Record<string, number>` fields are
modelled as association lists. -/
structure Stats where
  total_patients : Int
  total_appointments : Int
  total_diagnostics : Int
  total_admissions : Int
  pending_admissions : Int
  today_appointments : Int
  today_diagnostics : Int
  recent_activity : Int
  new_patients_week : Int
  platforms : List (String × Int)
  departments : List (String × Int)
  test_types : List (String × Int)
deriving DecidableEq, Repr

/-- The `Patient` interface of App.tsx. -/
structure Patient where
  id : Int
  external_id : String
  platform : String
  name : Option String
  phone : Option String
  email : Option String
  first_touch : Int
  last_touch : Int
  total_bookings : Int
  total_appointments : Int
  total_diagnostics : Int
  total_admissions : Int
  notes : Option String
deriving DecidableEq, Repr

/-- The `Interaction` interface of App.tsx. -/
structure Interaction where
  id : Int
  patient_id : Int
  user_id : String
  direction : String
  platform : String
  message : String
  message_type : String
  timestamp : Int
  patient_name : Option String
  external_id : Option String
deriving DecidableEq, Repr

/-- The slice of component state read and written by `fetchData`.
`weeklyData` is `any[]` in the source and is modelled as an opaque list of
integers. -/
structure AppState where
  loading : Bool
  stats : Option Stats
  weeklyData : List Int
  liveFeed : List Interaction
  patients : List Patient
  appointments : List Appointment
  diagnostics : List Diagnostic
  admissions : List Admission
  todayAppointments : List Appointment
  seen : SeenIds
deriving DecidableEq, Repr

instance {ε α : Type} [DecidableEq ε] [DecidableEq α] :
    DecidableEq (Except ε α) := fun x y =>
  match x, y with
  | .error a, .error b =>
    match decEq a b with
    | .isTrue h => .isTrue (by rw [h])
    | .isFalse h => .isFalse (by intro hc; injection hc; contradiction)
  | .error _, .ok _ => .isFalse (by intro hc; injection hc)
  | .ok _, .error _ => .isFalse (by intro hc; injection hc)
  | .ok a, .ok b =>
    match decEq a b with
    | .isTrue h => .isTrue (by rw [h])
    | .isFalse h => .isFalse (by intro hc; injection hc; contradiction)

/-- The settled outcomes of the eight concurrent GET requests of one poll
cycle, in the order they are passed to `Promise.all` (App.tsx 263-272). -/
structure FetchResults where
  statsR : Except String Stats
  weeklyR : Except String (List Int)
  feedR : Except String (List Interaction)
  patientsR : Except String (List Patient)
  appointmentsR : Except String (List Appointment)
  diagnosticsR : Except String (List Diagnostic)
  admissionsR : Except String (List Admission)
  todayR : Except String (List Appointment)
deriving DecidableEq, Repr

/-- The payload bundle destructured from a fulfilled `Promise.all`. -/
structure FetchedData where
  stats : Stats
  weekly : List Int
  feed : List Interaction
  patients : List Patient
  appointments : List Appointment
  diagnostics : List Diagnostic
  admissions : List Admission
  today : List Appointment
deriving DecidableEq, Repr

/-- Model of `Promise.all` over the eight requests: fulfills with all payloads when
every request fulfills, otherwise rejects (with the first error in argument
order standing in for the rejection reason). -/
def promiseAll8 (r : FetchResults) : Except String FetchedData := do
  let a ← r.statsR
  let b ← r.weeklyR
  let c ← r.feedR
  let d ← r.patientsR
  let e ← r.appointmentsR
  let f ← r.diagnosticsR
  let g ← r.admissionsR
  let h ← r.todayR
  return ⟨a, b, c, d, e, f, g, h⟩

/-- Source `fetchData` (App.tsx lines 261-344).  On fulfilment of the whole batch
every store is replaced and, unless this is still the initial load
(`loading` captured as true), the notification-detection block runs; on any
rejection the catch block only logs and clears `loading`, leaving every store
untouched.  Returns the new state plus the emitted event descriptors (which
the source passes to `addNotification` one by one). -/
def fetchData (st : AppState) (r : FetchResults) : AppState × List Event :=
  match promiseAll8 r with
  | .error _ => ({ st with loading := false }, [])
  | .ok d =>
    let st1 : AppState :=
      { loading := false
        stats := some d.stats
        weeklyData := d.weekly
        liveFeed := d.feed
        patients := d.patients
        appointments := d.appointments
        diagnostics := d.diagnostics
        admissions := d.admissions
        todayAppointments := d.today
        seen := st.seen }
    if st.loading then (st1, [])
    else
      let p := detect st.seen ⟨d.appointments, d.diagnostics, d.admissions⟩
      ({ st1 with seen := p.1 }, p.2)

/-- Sample appointment record used in concrete evaluations. -/
def apptA0 : Appointment :=
  ⟨"a0", "u0", "Asha", "555", "card", "Cardiology", "Dr. Rao", "2025-01-01",
   "10:00", "pending", "whatsapp", 0⟩

/-- Second sample appointment record. -/
def apptA1 : Appointment :=
  ⟨"a1", "u1", "Binu", "556", "orth", "Orthopedics", "Dr. Sen", "2025-01-02",
   "11:00", "pending", "instagram", 0⟩

/-- Sample diagnostic record. -/
def diagD1 : Diagnostic :=
  ⟨"d1", "u2", "Charu", "557", "X-Ray", "2025-01-03", "12:00", "pending", 0⟩

/-- Sample admission record. -/
def admM1 : Admission :=
  ⟨"m1", "u3", "Dev", "558", "41", "M", "General", "2025-01-04", "pending", 0⟩

/-- Snapshot holding only `apptA0`. -/
def snapA0 : Snapshot := ⟨[apptA0], [], []⟩

/-- Snapshot holding only `apptA1`. -/
def snapA1 : Snapshot := ⟨[apptA1], [], []⟩

/-- Snapshot holding one diagnostic and one admission and no appointments. -/
def snapDM : Snapshot := ⟨[], [diagD1], [admM1]⟩

/-- A seen-set state in which one appointment identity is already tracked. -/
def seenWarm : SeenIds := ⟨["a0"], [], []⟩

/-- Sample stats payload. -/
def stats1 : Stats := ⟨1, 2, 3, 4, 5, 6, 7, 8, 9, [], [], []⟩

/-- A post-initial-load state with empty stores. -/
def st0 : AppState := ⟨false, none, [], [], [], [], [], [], [], initialSeen⟩

/-- A fetch outcome in which only the appointments request failed. -/
def r0 : FetchResults :=
  ⟨.ok stats1, .ok [], .ok [], .ok [], .error "network", .ok [], .ok [], .ok []⟩

/-- Sample journal record used in concrete evaluations. -/
def baseNotif : AppNotification :=
  ⟨"n0", .appointment, "t", "m", 0, false, none, none⟩

/-- First of two journal records sharing the id "x". -/
def dupNotifA : AppNotification :=
  ⟨"x", .appointment, "t1", "m1", 0, false, none, none⟩

/-- Second of two journal records sharing the id "x". -/
def dupNotifB : AppNotification :=
  ⟨"x", .diagnostic, "t2", "m2", 1, false, none, none⟩

/-- An unread record mirrored both in the journal and in the toast list. -/
def toastNotif : AppNotification :=
  ⟨"t1", .appointment, "T", "M", 0, false, none, none⟩

/-- A state in which the same record sits in both collections. -/
def stToast : NotifState := ⟨[toastNotif], [toastNotif]⟩

/-- The result shape of the message normalizer: `\x7b text, options? \x7d`. -/
structure ParsedMessage where
  text : String
  options : Option (List String)
deriving DecidableEq, Repr

/-- The ASCII whitespace recognized by JavaScript's `trim` and `\s`. -/
def wsChar (c : Char) : Bool :=
  c = ' ' || c = '\t' || c = '\n' || c = '\r' || c = '\x0b' || c = '\x0c'

/-- JavaScript `String.prototype.trim`, structurally recursive over the characters. -/
def jsTrim (s : String) : String :=
  String.mk (((s.data.dropWhile wsChar).reverse.dropWhile wsChar).reverse)

/-- JavaScript word characters (`\w`). -/
def isWordCh (c : Char) : Bool := c.isAlphanum || c = '_'

/-- The quote characters matched by the `["']` character class of the
source's regexes. -/
def isQuoteCh (c : Char) : Bool := c = '"' || c = '\''

/-- Whether `pat` is a prefix of `cs`. -/
def listStartsWith : List Char → List Char → Bool
  | [], _ => true
  | _ :: _, [] => false
  | p :: ps, c :: cs => p = c && listStartsWith ps cs

/-- JavaScript `String.prototype.indexOf` over character lists: position of the first
occurrence of `pat`, or `none` (so `isSome` is `includes`). -/
def subIndex (pat : List Char) : List Char → Option Nat
  | [] => if listStartsWith pat [] then some 0 else none
  | c :: rest =>
    if listStartsWith pat (c :: rest) then some 0
    else (subIndex pat rest).map (· + 1)

/-- JavaScript `String.prototype.includes` over character lists. -/
def containsSub (pat cs : List Char) : Bool := (subIndex pat cs).isSome

/-- JavaScript `String.prototype.split` with a non-empty string separator: split at each
non-overlapping occurrence, scanning left to right.  `fuel` bounds the scan
(one unit per piece suffices). -/
def splitOnChars (sep : List Char) : Nat → List Char → List (List Char)
  | 0, cs => [cs]
  | fuel + 1, cs =>
    match subIndex sep cs with
    | none => [cs]
    | some i =>
      if sep.isEmpty then [cs]
      else cs.take i :: splitOnChars sep fuel (cs.drop (i + sep.length))

/-- Source `s.replace(/'/g, '"')` applied per character (App.tsx line 444). -/
def swapQuote (c : Char) : Char := if c = '\'' then '"' else c

/-- The global replacement `(\w+): → "$1":` quoting bare keys (App.tsx line
444).  A maximal word-character run immediately followed by `:` is wrapped
in double quotes; `fuel` bounds the scan (one unit per step suffices). -/
def quoteBareKeys : Nat → List Char → List Char
  | 0, cs => cs
  | _ + 1, [] => []
  | fuel + 1, c :: rest =>
    if isWordCh c then
      match (c :: rest).dropWhile isWordCh with
      | ':' :: tail =>
        '"' :: ((c :: rest).takeWhile isWordCh ++ '"' :: ':' :: quoteBareKeys fuel tail)
      | other => (c :: rest).takeWhile isWordCh ++ quoteBareKeys fuel other
    else c :: quoteBareKeys fuel rest

/-- The whole quote normalization of the structured tier:
`s.replace(/'/g, '"').replace(/(\w+):/g, '"$1":')`. -/
def jsNormalizeChars (s : String) : List Char :=
  quoteBareKeys (s.data.length + 1) (s.data.map swapQuote)

/-- JSON values as produced by `JSON.parse`.  Numeric values are truncated
to their integer part; the display logic only observes their truthiness and
only for the value zero does that differ from full precision, a case no
claim touches. -/
inductive Json where
  | null
  | bool (b : Bool)
  | num (n : Int)
  | str (s : String)
  | arr (elems : List Json)
  | obj (fields : List (String × Json))
deriving Repr

/-- Skip JSON whitespace. -/
def skipWs (cs : List Char) : List Char := cs.dropWhile Char.isWhitespace

/-- Hexadecimal digit value. -/
def hexVal (c : Char) : Option Nat :=
  if '0' ≤ c ∧ c ≤ '9' then some (c.toNat - 48)
  else if 'a' ≤ c ∧ c ≤ 'f' then some (c.toNat - 87)
  else if 'A' ≤ c ∧ c ≤ 'F' then some (c.toNat - 55)
  else none

/-- Single-character JSON string escapes. -/
def escChar (e : Char) : Option Char :=
  if e = '"' then some '"'
  else if e = '\\' then some '\\'
  else if e = '/' then some '/'
  else if e = 'b' then some (Char.ofNat 8)
  else if e = 'f' then some (Char.ofNat 12)
  else if e = 'n' then some '\n'
  else if e = 'r' then some '\r'
  else if e = 't' then some '\t'
  else none

/-- Parse the body of a JSON string literal (after the opening quote),
returning the decoded characters and the input after the closing quote.
Unescaped control characters and unknown escapes are rejected, as by
`JSON.parse`. -/
def parseStrChars : List Char → Option (List Char × List Char)
  | [] => none
  | c :: rest =>
    if c = '"' then some ([], rest)
    else if c = '\\' then
      match rest with
      | [] => none
      | e :: rest2 =>
        if e = 'u' then
          match rest2 with
          | h1 :: h2 :: h3 :: h4 :: rest3 =>
            match hexVal h1, hexVal h2, hexVal h3, hexVal h4 with
            | some v1, some v2, some v3, some v4 =>
              (parseStrChars rest3).map (fun p =>
                (Char.ofNat (((v1 * 16 + v2) * 16 + v3) * 16 + v4) :: p.1, p.2))
            | _, _, _, _ => none
          | _ => none
        else
          match escChar e with
          | some d => (parseStrChars rest2).map (fun p => (d :: p.1, p.2))
          | none => none
    else if c.toNat < 32 then none
    else (parseStrChars rest).map (fun p => (c :: p.1, p.2))

/-- Decimal digits to a natural number. -/
def digitsToNat (ds : List Char) : Nat :=
  ds.foldl (fun a c => a * 10 + (c.toNat - 48)) 0

/-- Parse the sign-and-digits tail of a JSON exponent; the flag records
whether the tail was well-formed. -/
def parseExpTail (r : List Char) : Bool × List Char :=
  let r2 := match r with
    | '+' :: rr => rr
    | '-' :: rr => rr
    | _ => r
  if (r2.takeWhile Char.isDigit).isEmpty then (false, r)
  else (true, r2.dropWhile Char.isDigit)

/-- Parse a JSON number token (integer part retained). -/
def parseNumTok (cs : List Char) : Option (Json × List Char) :=
  let sign := match cs with
    | '-' :: r => (true, r)
    | _ => (false, cs)
  let ds := sign.2.takeWhile Char.isDigit
  let rest := sign.2.dropWhile Char.isDigit
  if ds.isEmpty then none
  else if 1 < ds.length ∧ ds.head? = some '0' then none
  else
    let frac : Bool × List Char := match rest with
      | '.' :: r =>
        if (r.takeWhile Char.isDigit).isEmpty then (false, rest)
        else (true, r.dropWhile Char.isDigit)
      | _ => (true, rest)
    if frac.1 = false then none
    else
      let ex : Bool × List Char := match frac.2 with
        | 'e' :: r | 'E' :: r => parseExpTail r
        | _ => (true, frac.2)
      if ex.1 = false then none
      else
        some (.num (if sign.1 then -(digitsToNat ds : Int) else (digitsToNat ds : Int)),
          ex.2)

mutual

/-- Parse one JSON value; `fuel` bounds nesting and member counts. -/
def parseVal : Nat → List Char → Option (Json × List Char)
  | 0, _ => none
  | fuel + 1, cs =>
    match skipWs cs with
    | [] => none
    | c :: rest =>
      if c = '\x7b' then parseObjRest fuel rest true []
      else if c = '[' then parseArrRest fuel rest true []
      else if c = '"' then
        (parseStrChars rest).map (fun p => (.str (String.mk p.1), p.2))
      else if c = 't' then
        match rest with
        | 'r' :: 'u' :: 'e' :: r => some (.bool true, r)
        | _ => none
      else if c = 'f' then
        match rest with
        | 'a' :: 'l' :: 's' :: 'e' :: r => some (.bool false, r)
        | _ => none
      else if c = 'n' then
        match rest with
        | 'u' :: 'l' :: 'l' :: r => some (.null, r)
        | _ => none
      else parseNumTok (c :: rest)

/-- Parse object members after the opening brace. -/
def parseObjRest : Nat → List Char → Bool → List (String × Json) →
    Option (Json × List Char)
  | 0, _, _, _ => none
  | fuel + 1, cs, isFirst, acc =>
    match skipWs cs with
    | [] => none
    | c :: rest =>
      if c = '\x7d' ∧ isFirst then some (.obj acc.reverse, rest)
      else if c = '"' then
        match parseStrChars rest with
        | none => none
        | some (key, afterKey) =>
          match skipWs afterKey with
          | ':' :: afterColon =>
            match parseVal fuel afterColon with
            | none => none
            | some (v, afterVal) =>
              match skipWs afterVal with
              | ',' :: afterComma =>
                parseObjRest fuel afterComma false ((String.mk key, v) :: acc)
              | '\x7d' :: afterBrace =>
                some (.obj ((String.mk key, v) :: acc).reverse, afterBrace)
              | _ => none
          | _ => none
      else none

/-- Parse array elements after the opening bracket. -/
def parseArrRest : Nat → List Char → Bool → List Json →
    Option (Json × List Char)
  | 0, _, _, _ => none
  | fuel + 1, cs, isFirst, acc =>
    match skipWs cs with
    | [] => none
    | c :: rest =>
      if c = ']' ∧ isFirst then some (.arr acc.reverse, rest)
      else
        match parseVal fuel (c :: rest) with
        | none => none
        | some (v, afterVal) =>
          match skipWs afterVal with
          | ',' :: afterComma => parseArrRest fuel afterComma false (v :: acc)
          | ']' :: afterBracket => some (.arr (v :: acc).reverse, afterBracket)
          | _ => none

end

/-- Model of `JSON.parse`: one value surrounded by whitespace only.  The fuel is
ample: every unit of fuel spent accompanies consuming at least one input
character or opening one nested value. -/
def jsonParse (cs : List Char) : Option Json :=
  match parseVal (2 * cs.length + 4) cs with
  | some (v, rest) => if (skipWs rest).isEmpty then some v else none
  | none => none

/-- Field lookup on parsed objects; with duplicate keys the last wins, as in
`JSON.parse`. -/
def lookupField (fs : List (String × Json)) (k : String) : Option Json :=
  fs.foldl (fun acc p => if p.1 = k then some p.2 else acc) none

/-- JavaScript property access `v.k`: `none` models a thrown TypeError
(property access on null), `some none` models `undefined`. -/
def propAccess : Json → String → Option (Option Json)
  | .null, _ => none
  | .obj fs, k => some (lookupField fs k)
  | _, _ => some none

/-- JavaScript truthiness of a parsed value. -/
def jsTruthy : Json → Bool
  | .str s => s ≠ ""
  | .num n => n ≠ 0
  | .bool b => b
  | .null => false
  | .arr _ => true
  | .obj _ => true

/-- JavaScript `.trim()` on a value: throws (`none`) unless the value is a string. -/
def jsTrimVal : Json → Option String
  | .str s => some (jsTrim s)
  | _ => none

/-- The `b.id || ''` fallback used when `b.title` is falsy. -/
def btnLabelId (b : Json) : Option String :=
  match propAccess b "id" with
  | none => none
  | some iv =>
    match iv with
    | some v => if jsTruthy v then jsTrimVal v else some ""
    | none => some ""

/-- Source `(b.title || b.id || '').trim()` for one buttons entry; `none` models a
throw. -/
def btnLabel (b : Json) : Option String :=
  match propAccess b "title" with
  | none => none
  | some tv =>
    match tv with
    | some v => if jsTruthy v then jsTrimVal v else btnLabelId b
    | none => btnLabelId b

/-- Source `(json.text || '').trim()`. -/
def textVal (j : Json) : Option String :=
  match propAccess j "text" with
  | none => none
  | some tv =>
    match tv with
    | some v => if jsTruthy v then jsTrimVal v else some ""
    | none => some ""

/-- Source `buttons.map(b => (b.title || b.id || '').trim())` with exception
propagation. -/
def mapBtns : List Json → Option (List String)
  | [] => some []
  | b :: bs =>
    match btnLabel b with
    | none => none
    | some s => (mapBtns bs).map (fun l => s :: l)

/-- Source `text || 'Message sent'` and kin: default when the string is empty. -/
def jsOrDefault (s d : String) : String := if s = "" then d else s

/-- The successful-parse arm of the structured tier (App.tsx 446-449).
`none` models a thrown TypeError, which the source's catch turns into the
regex fallback.  `buttons?.map(...).filter(Boolean)` short-circuits to
`undefined` when `buttons` is missing or null, throws when it is any other
non-array value, and otherwise keeps the (possibly empty) filtered list. -/
def structuredTier (j : Json) : Option ParsedMessage :=
  match textVal j with
  | none => none
  | some t =>
    match propAccess j "buttons" with
    | none => none
    | some bv =>
      match bv with
      | none => some ⟨jsOrDefault t "Message sent", none⟩
      | some .null => some ⟨jsOrDefault t "Message sent", none⟩
      | some (.arr bs) =>
        match mapBtns bs with
        | none => none
        | some labels =>
          some ⟨jsOrDefault t "Message sent",
            some (labels.filter (fun s => s ≠ ""))⟩
      | some _ => none

/-- One attempt of `/'text'\s*:\s*["']((?:[^"']|\n)*)["']/` at the current
position (the character class `[^"']` already admits newlines, so the
capture is a maximal quote-free run). -/
def matchTextAt (cs : List Char) : Option String :=
  match cs with
  | '\'' :: 't' :: 'e' :: 'x' :: 't' :: '\'' :: rest =>
    match rest.dropWhile wsChar with
    | ':' :: r2 =>
      match r2.dropWhile wsChar with
      | q :: r4 =>
        if isQuoteCh q then
          match r4.dropWhile (fun c => !isQuoteCh c) with
          | _ :: _ => some (String.mk (r4.takeWhile (fun c => !isQuoteCh c)))
          | [] => none
        else none
      | [] => none
    | _ => none
  | _ => none

/-- First match of the text regex anywhere in the input. -/
def findTextCapture : List Char → Option String
  | [] => none
  | c :: rest =>
    match matchTextAt (c :: rest) with
    | some s => some s
    | none => findTextCapture rest

/-- One attempt of `/'title'\s*:\s*["']([^"']*)["']/` at the current
position, returning the capture and the input after the match. -/
def matchTitleAt (cs : List Char) : Option (String × List Char) :=
  match cs with
  | '\'' :: 't' :: 'i' :: 't' :: 'l' :: 'e' :: '\'' :: rest =>
    match rest.dropWhile wsChar with
    | ':' :: r2 =>
      match r2.dropWhile wsChar with
      | q :: r4 =>
        if isQuoteCh q then
          match r4.dropWhile (fun c => !isQuoteCh c) with
          | _ :: after =>
            some (String.mk (r4.takeWhile (fun c => !isQuoteCh c)), after)
          | [] => none
        else none
      | [] => none
    | _ => none
  | _ => none

/-- All matches of the global title regex, scanning left to right and
resuming after each match; each capture is what the source's two `.replace`
post-processing calls net out to.  `fuel` bounds the scan. -/
def findTitleCaps : Nat → List Char → List String
  | 0, _ => []
  | _ + 1, [] => []
  | fuel + 1, c :: rest =>
    match matchTitleAt (c :: rest) with
    | some (s, after) => s :: findTitleCaps fuel after
    | none => findTitleCaps fuel rest

/-- The catch arm of the structured tier (App.tsx 451-455). -/
def regexFallback (s : String) : ParsedMessage :=
  let text := match findTextCapture s.data with
    | some t => t
    | none => s
  let titles := findTitleCaps (s.data.length + 1) s.data
  ⟨jsOrDefault text s, if titles.isEmpty then none else some titles⟩

/-- Source `s.startsWith('{') && (s.includes('text') || s.includes('buttons'))`. -/
def structGate (s : String) : Bool :=
  listStartsWith ['\x7b'] s.data &&
    (containsSub "text".data s.data || containsSub "buttons".data s.data)

/-- The `"Options: "` delimiter marker (9 characters). -/
def optionsMarker : List Char := "Options: ".data

/-- Source `parseMessageDisplay` (App.tsx 435-459): the tiered message normalizer.
The `!raw || typeof raw !== 'string'` guard collapses to the empty-string
case, since here the input is always a string. -/
def parseMessageDisplay (raw : String) : ParsedMessage :=
  if raw = "" then ⟨"", none⟩
  else
    let s := jsTrim raw
    match subIndex optionsMarker s.data with
    | some idx =>
      ⟨jsTrim (String.mk (s.data.take idx)),
        some (((splitOnChars ", ".data (s.data.length + 1)
            (s.data.drop (idx + 9))).map
          (fun cs => jsTrim (String.mk cs))).filter (fun x => x ≠ ""))⟩
    | none =>
      if structGate s then
        match jsonParse (jsNormalizeChars s) with
        | some j =>
          match structuredTier j with
          | some r => r
          | none => regexFallback s
        | none => regexFallback s
      else ⟨s, none⟩

/-- The `/\\n/g → '\n'` post-processing of `formatMessageForDisplay`. -/
def replaceEscNewline : List Char → List Char
  | [] => []
  | '\\' :: 'n' :: rest => '\n' :: replaceEscNewline rest
  | c :: rest => c :: replaceEscNewline rest

/-- Source `formatMessageForDisplay` (App.tsx 462-466): normalize, then turn
literal two-character `\n` escapes in the text into real newlines. -/
def formatMessageForDisplay (raw : String) : ParsedMessage :=
  let p := parseMessageDisplay raw
  ⟨String.mk (replaceEscNewline p.text.data), p.options⟩

/-- The spec's structured-tier round-trip example (braces written as
hex escapes). -/
def ex6raw : String :=
  "\x7b'text': 'Hi there', 'buttons': [\x7b'title': 'Book'\x7d, \x7b'id': 'cancel'\x7d]\x7d"

/-- The parse of `ex6raw` after quote normalization. -/
def ex6json : Json :=
  .obj [("text", .str "Hi there"),
    ("buttons", .arr [.obj [("title", .str "Book")], .obj [("id", .str "cancel")]])]

/-- A structured literal whose buttons array filters to the empty list. -/
def ex6cex : String := "\x7b'text': 'Hi', 'buttons': []\x7d"

theorem mem_insertId {s : List String} {x y : String} :
    y ∈ insertId s x ↔ y ∈ s ∨ y = x := by
  unfold insertId
  by_cases h : x ∈ s
  · simp only [if_pos h]
    constructor
    · exact fun hy => Or.inl hy
    · rintro (hy | rfl) <;> [exact hy; exact h]
  · simp only [if_neg h, List.mem_cons]
    tauto

theorem mem_foldl_insertId (f : α → String) :
    ∀ (l : List α) (s : List String) (x : String),
      x ∈ l.foldl (fun s a => insertId s (f a)) s ↔ x ∈ s ∨ x ∈ l.map f := by
  intro l
  induction l with
  | nil => simp
  | cons a l ih =>
    intro s x
    simp only [List.foldl_cons, List.map_cons, List.mem_cons]
    rw [ih, mem_insertId]
    tauto

theorem detectLoop_seen_mem (getId : α → String) (mk : α → NotifDescr) (t : NType) :
    ∀ (rs : List α) (seen : List String) (x : String),
      x ∈ (detectLoop getId mk t seen rs).1 ↔ x ∈ seen ∨ x ∈ rs.map getId := by
  intro rs
  induction rs with
  | nil => simp [detectLoop]
  | cons r rs ih =>
    intro seen x
    rw [detectLoop]
    by_cases h : getId r ∈ seen
    · rw [if_pos h, ih]
      simp only [List.map_cons, List.mem_cons]
      constructor
      · tauto
      · rintro (hx | rfl | hx) <;> [tauto; exact Or.inl h; tauto]
    · rw [if_neg h]
      simp only [ih, List.mem_cons, List.map_cons]
      tauto

theorem refCount_cons (t : NType) (x : String) (e : Event) (evs : List Event) :
    refCount t x (e :: evs) =
      refCount t x evs + (if e.rtype = t ∧ e.rid = x then 1 else 0) := by
  simp [refCount, List.countP_cons]

theorem refCount_append (t : NType) (x : String) (l1 l2 : List Event) :
    refCount t x (l1 ++ l2) = refCount t x l1 + refCount t x l2 := by
  simp [refCount, List.countP_append]

theorem detectLoop_count (getId : α → String) (mk : α → NotifDescr) (t t' : NType) :
    ∀ (rs : List α) (seen : List String) (x : String),
      refCount t' x (detectLoop getId mk t seen rs).2 =
        if t' = t ∧ x ∈ rs.map getId ∧ x ∉ seen then 1 else 0 := by
  intro rs
  induction rs with
  | nil => simp [detectLoop, refCount]
  | cons r rs ih =>
    intro seen x
    rw [detectLoop]
    by_cases h : getId r ∈ seen
    · rw [if_pos h, ih]
      by_cases hx : x = getId r
      · subst hx
        rw [if_neg (by tauto), if_neg (by tauto)]
      · have hmc : x ∈ (r :: rs).map getId ↔ x ∈ rs.map getId := by
          simp only [List.map_cons, List.mem_cons]
          tauto
        by_cases hc : t' = t ∧ x ∈ rs.map getId ∧ x ∉ seen
        · rw [if_pos hc, if_pos ⟨hc.1, hmc.mpr hc.2.1, hc.2.2⟩]
        · rw [if_neg hc, if_neg (by rw [hmc]; exact hc)]
    · rw [if_neg h]
      simp only [refCount_cons, ih]
      by_cases ht : t' = t <;> by_cases hx : x = getId r <;>
        by_cases hm : x ∈ rs.map getId <;> by_cases hs : x ∈ seen <;>
          simp_all [List.map_cons, List.mem_cons, eq_comm]

theorem detect_seen_mem (seen : SeenIds) (snap : Snapshot) (t : NType) (x : String) :
    x ∈ setsFor (detect seen snap).1 t ↔ x ∈ setsFor seen t ∨ x ∈ idsOf t snap := by
  unfold detect
  by_cases h : seen.appointments.isEmpty
  · rw [if_pos h]
    cases t <;>
      simp [setsFor, idsOf, mem_foldl_insertId]
  · rw [if_neg h]
    cases t <;>
      simp [setsFor, idsOf, detectLoop_seen_mem]

theorem detect_count (seen : SeenIds) (snap : Snapshot) (t : NType) (x : String) :
    refCount t x (detect seen snap).2 =
      if seen.appointments ≠ [] ∧ x ∈ idsOf t snap ∧ x ∉ setsFor seen t then 1
      else 0 := by
  unfold detect
  by_cases h : seen.appointments.isEmpty
  · rw [if_pos h, if_neg (by simp_all [List.isEmpty_iff])]
    simp [refCount]
  · rw [if_neg h]
    have hne : seen.appointments ≠ [] := by simpa [List.isEmpty_iff] using h
    simp only [refCount_append, detectLoop_count]
    cases t <;> simp [idsOf, setsFor, hne]

theorem setsFor_initial (t : NType) : setsFor initialSeen t = [] := by
  cases t <;> rfl

theorem seenAfterRun_mem (snaps : List Snapshot) :
    ∀ (seen : SeenIds) (t : NType) (x : String),
      x ∈ setsFor (seenAfterRun seen snaps) t ↔
        x ∈ setsFor seen t ∨ ∃ s ∈ snaps, x ∈ idsOf t s := by
  induction snaps with
  | nil => simp [seenAfterRun]
  | cons s rest ih =>
    intro seen t x
    rw [seenAfterRun, ih, detect_seen_mem]
    simp only [List.mem_cons]
    constructor
    · rintro ((h | h) | ⟨s', hs', h⟩)
      · exact Or.inl h
      · exact Or.inr ⟨s, Or.inl rfl, h⟩
      · exact Or.inr ⟨s', Or.inr hs', h⟩
    · rintro (h | ⟨s', (rfl | hs'), h⟩)
      · exact Or.inl (Or.inl h)
      · exact Or.inl (Or.inr h)
      · exact Or.inr ⟨s', hs', h⟩

theorem nth_mem : ∀ (l : List α) (j : Nat) (a : α), nth l j = some a → a ∈ l := by
  intro l
  induction l with
  | nil => intro j a h; cases j <;> simp [nth] at h
  | cons b l ih =>
    intro j a h
    cases j with
    | zero =>
      rw [nth] at h
      injection h with h
      exact h ▸ List.mem_cons_self b l
    | succ j => exact List.mem_cons_of_mem b (ih j a h)

theorem mem_nth : ∀ (l : List α) (a : α), a ∈ l → ∃ j, nth l j = some a := by
  intro l
  induction l with
  | nil => intro a h; cases h
  | cons b l ih =>
    intro a h
    rcases List.mem_cons.mp h with rfl | h
    · exact ⟨0, rfl⟩
    · obtain ⟨j, hj⟩ := ih a h
      exact ⟨j + 1, hj⟩

theorem nth_some_lt : ∀ (l : List α) (j : Nat) (a : α),
    nth l j = some a → j < l.length := by
  intro l
  induction l with
  | nil => intro j a h; cases j <;> simp [nth] at h
  | cons b l ih =>
    intro j a h
    cases j with
    | zero => simp
    | succ j => simpa [Nat.succ_lt_succ_iff] using ih j a h

theorem nth_none_of_length_le : ∀ (l : List α) (j : Nat),
    l.length ≤ j → nth l j = none := by
  intro l
  induction l with
  | nil => intro j _; cases j <;> rfl
  | cons b l ih =>
    intro j h
    cases j with
    | zero => simp at h
    | succ j => exact ih j (by simpa [Nat.succ_le_succ_iff] using h)

theorem nth_take : ∀ (l : List α) (k j : Nat), j < k → nth (l.take k) j = nth l j := by
  intro l
  induction l with
  | nil => intro k j _; simp
  | cons b l ih =>
    intro k j hj
    cases k with
    | zero => omega
    | succ k =>
      cases j with
      | zero => rfl
      | succ j => exact ih k j (by omega)

theorem length_runDetect : ∀ (snaps : List Snapshot) (seen : SeenIds),
    (runDetect seen snaps).length = snaps.length := by
  intro snaps
  induction snaps with
  | nil => intro seen; rfl
  | cons s rest ih => intro seen; simp [runDetect, ih]

theorem runDetect_nth :
    ∀ (snaps : List Snapshot) (seen : SeenIds) (j : Nat) (sj : Snapshot),
      nth snaps j = some sj →
      nth (runDetect seen snaps) j =
        some (detect (seenAfterRun seen (snaps.take j)) sj).2 := by
  intro snaps
  induction snaps with
  | nil => intro seen j sj h; cases j <;> simp [nth] at h
  | cons s rest ih =>
    intro seen j sj h
    cases j with
    | zero =>
      rw [nth] at h
      injection h with h
      subst h
      rfl
    | succ j =>
      rw [nth] at h
      rw [runDetect, nth, List.take_succ_cons,
        show seenAfterRun seen (s :: rest.take j) =
          seenAfterRun (detect seen s).1 (rest.take j) from rfl]
      exact ih (detect seen s).1 j sj h

theorem firstAppear_spec :
    ∀ (snaps : List Snapshot) (t : NType) (x : String) (k : Nat),
      firstAppear t x snaps = some k →
      ∃ sk, nth snaps k = some sk ∧ x ∈ idsOf t sk ∧
        ∀ j sj, j < k → nth snaps j = some sj → x ∉ idsOf t sj := by
  intro snaps
  induction snaps with
  | nil => intro t x k h; simp [firstAppear] at h
  | cons s rest ih =>
    intro t x k h
    rw [firstAppear] at h
    by_cases hx : x ∈ idsOf t s
    · rw [if_pos hx] at h
      injection h with h
      subst h
      exact ⟨s, rfl, hx, fun j sj hj _ => by omega⟩
    · rw [if_neg hx] at h
      cases hfa : firstAppear t x rest with
      | none => rw [hfa] at h; simp at h
      | some k' =>
        rw [hfa] at h
        rw [show (some k').map (· + 1) = some (k' + 1) from rfl] at h
        injection h with h
        subst h
        obtain ⟨sk, h1, h2, h3⟩ := ih t x k' hfa
        refine ⟨sk, h1, h2, ?_⟩
        intro j sj hj hn
        cases j with
        | zero =>
          rw [nth] at hn
          injection hn with hn
          subst hn
          exact hx
        | succ j => exact h3 j sj (by omega) hn

theorem nth_isSome_of_lt : ∀ (l : List α) (j : Nat),
    j < l.length → ∃ a, nth l j = some a := by
  intro l
  induction l with
  | nil => intro j h; simp at h
  | cons b l ih =>
    intro j h
    cases j with
    | zero => exact ⟨b, rfl⟩
    | succ j => exact ih j (by simpa [Nat.succ_lt_succ_iff] using h)

/-- Claim C1 (amended): over any sequence of snapshots processed from the
initial (all-empty) seen state, if identity `x` of type `t` first appears in
the snapshot at index `k`, and the appointments seen-set is nonempty by the
time that snapshot is processed (i.e. some appointment identity occurred in
an earlier snapshot), then the detection step emits exactly one event
referencing `x`, at step `k`, and none at any other step.  Without that
proviso — in particular whenever `x` is already part of the first snapshot —
the identity is silently absorbed by the cold-start branch and no event is
ever emitted for it. -/
theorem detect_exactly_once (snaps : List Snapshot) (t : NType) (x : String)
    (k : Nat) (hfa : firstAppear t x snaps = some k)
    (hwarm : (seenAfterRun initialSeen (snaps.take k)).appointments ≠ []) :
    refCount t x (eventsAt snaps k) = 1 ∧
      ∀ j, j ≠ k → refCount t x (eventsAt snaps j) = 0 := by
  obtain ⟨sk, hk, hxk, hbefore⟩ := firstAppear_spec snaps t x k hfa
  have hnotseen : ∀ m, (∀ j sj, j < m → nth snaps j = some sj → x ∉ idsOf t sj) →
      x ∉ setsFor (seenAfterRun initialSeen (snaps.take m)) t := by
    intro m hb hmem
    rw [seenAfterRun_mem] at hmem
    rcases hmem with hcontra | ⟨s', hs', hxs⟩
    · rw [setsFor_initial] at hcontra
      cases hcontra
    · obtain ⟨j, hj⟩ := mem_nth _ _ hs'
      have hjlt : j < (snaps.take m).length := nth_some_lt _ _ _ hj
      have hjm : j < m := by
        have : (snaps.take m).length ≤ m := by
          rw [List.length_take]
          exact Nat.min_le_left _ _
        omega
      rw [nth_take _ _ _ hjm] at hj
      exact hb j s' hjm hj hxs
  constructor
  · unfold eventsAt
    rw [runDetect_nth snaps initialSeen k sk hk, Option.getD_some, detect_count,
      if_pos ⟨hwarm, hxk, hnotseen k hbefore⟩]
  · intro j hj
    cases hnj : nth snaps j with
    | none =>
      have hlen : snaps.length ≤ j := by
        by_contra hlt
        push_neg at hlt
        obtain ⟨a, ha⟩ := nth_isSome_of_lt snaps j hlt
        rw [ha] at hnj
        exact Option.noConfusion hnj
      unfold eventsAt
      rw [nth_none_of_length_le _ _ (by rw [length_runDetect]; exact hlen)]
      simp [refCount]
    | some sj =>
      unfold eventsAt
      rw [runDetect_nth snaps initialSeen j sj hnj, Option.getD_some, detect_count]
      rcases Nat.lt_or_ge j k with hlt | hge
      · rw [if_neg]
        rintro ⟨-, hxj, -⟩
        exact hbefore j sj hlt hnj hxj
      · have hgt : k < j := by omega
        rw [if_neg]
        rintro ⟨-, -, hns⟩
        apply hns
        rw [seenAfterRun_mem]
        refine Or.inr ⟨sk, ?_, hxk⟩
        have htk : nth (snaps.take j) k = some sk := by
          rw [nth_take _ _ _ hgt]
          exact hk
        exact nth_mem _ _ _ htk

/-- Claim C1 as frozen is false on the code: the appointment identity "a1"
first appears in the very first snapshot (step 0), yet the detection step
emits zero events referencing it, not exactly one — the cold-start branch
absorbs the whole first snapshot silently. -/
theorem detect_exactly_once_cex :
    firstAppear .appointment "a1" [snapA1] = some 0 ∧
      refCount .appointment "a1" (eventsAt [snapA1] 0) = 0 := by
  constructor <;> decide

/-- Witness for `detect_exactly_once`: "a1" first appears in the second
snapshot, after "a0" warmed the appointments seen-set; exactly one event for
it at step 1 and none at step 0. -/
theorem detect_exactly_once_witness :
    refCount .appointment "a1" (eventsAt [snapA0, snapA1] 1) = 1 ∧
      refCount .appointment "a1" (eventsAt [snapA0, snapA1] 0) = 0 := by
  have h := detect_exactly_once [snapA0, snapA1] .appointment "a1" 1
    (by decide) (by decide)
  exact ⟨h.1, h.2 0 (by decide)⟩

/-- Claim C3: cold start.  When the seen-identity sets are empty for all
three watched resource types, a detection pass over any snapshot emits zero
events and leaves each seen set holding exactly the identities present in
that snapshot; moreover the first poll after engine start (with `loading`
still true) never emits notifications. -/
theorem detect_cold_start (seen : SeenIds) (snap : Snapshot)
    (h1 : seen.appointments = []) (h2 : seen.diagnostics = [])
    (h3 : seen.admissions = []) :
    (detect seen snap).2 = [] ∧
      (∀ t x, x ∈ setsFor (detect seen snap).1 t ↔ x ∈ idsOf t snap) ∧
      (∀ (st : AppState) (r : FetchResults), st.loading = true →
        (fetchData st r).2 = []) := by
  have hisempty : seen.appointments.isEmpty = true := by rw [h1]; rfl
  refine ⟨?_, ?_, ?_⟩
  · unfold detect
    rw [if_pos hisempty]
  · intro t x
    rw [detect_seen_mem]
    have hempty : setsFor seen t = [] := by
      cases t <;> simp [setsFor, h1, h2, h3]
    rw [hempty]
    simp
  · intro st r hl
    rcases hp : promiseAll8 r with e | d <;> simp [fetchData, hp, hl]

/-- Witness for `detect_cold_start`: the empty initial state against a
snapshot holding a diagnostic and an admission. -/
theorem detect_cold_start_witness :
    (detect initialSeen snapDM).2 = [] ∧
      "d1" ∈ setsFor (detect initialSeen snapDM).1 .diagnostic ∧
      "m1" ∈ setsFor (detect initialSeen snapDM).1 .admission := by
  have h := detect_cold_start initialSeen snapDM rfl rfl rfl
  exact ⟨h.1, (h.2.1 .diagnostic "d1").mpr (by decide),
    (h.2.1 .admission "m1").mpr (by decide)⟩

theorem detectLoop_events_spec (getId : α → String) (mk : α → NotifDescr)
    (t : NType) :
    ∀ (rs : List α) (seen : List String) (e : Event),
      e ∈ (detectLoop getId mk t seen rs).2 →
      e.rtype = t ∧ ∃ r ∈ rs, getId r = e.rid ∧ e.descr = mk r := by
  intro rs
  induction rs with
  | nil => intro seen e h; simp [detectLoop] at h
  | cons r rs ih =>
    intro seen e h
    rw [detectLoop] at h
    by_cases hm : getId r ∈ seen
    · rw [if_pos hm] at h
      obtain ⟨ht, r', hr', hgid, hdescr⟩ := ih seen e h
      exact ⟨ht, r', List.mem_cons_of_mem r hr', hgid, hdescr⟩
    · rw [if_neg hm] at h
      simp only [List.mem_cons] at h
      rcases h with rfl | h
      · exact ⟨rfl, r, List.mem_cons_self r rs, rfl, rfl⟩
      · obtain ⟨ht, r', hr', hgid, hdescr⟩ := ih (getId r :: seen) e h
        exact ⟨ht, r', List.mem_cons_of_mem r hr', hgid, hdescr⟩

/-- Claim C10: every diagnostic and every admission detection event carries
the constant source "whatsapp" irrespective of the polled record, whereas an
appointment event's source is copied from the `source` field of the
appointment record that triggered it. -/
theorem detect_event_source (seen : SeenIds) (snap : Snapshot) (e : Event)
    (he : e ∈ (detect seen snap).2) :
    (e.rtype = .diagnostic → e.descr.source = some "whatsapp") ∧
      (e.rtype = .admission → e.descr.source = some "whatsapp") ∧
      (e.rtype = .appointment →
        ∃ a ∈ snap.appointments, a.booking_id = e.rid ∧
          e.descr.source = some a.source) := by
  unfold detect at he
  by_cases h : seen.appointments.isEmpty
  · rw [if_pos h] at he
    exact absurd he (List.not_mem_nil e)
  · rw [if_neg h] at he
    simp only [List.mem_append] at he
    rcases he with (ha | hd) | hm
    · obtain ⟨ht, a, hmem, hid, hdescr⟩ := detectLoop_events_spec _ _ _ _ _ _ ha
      refine ⟨?_, ?_, ?_⟩
      · intro hc
        rw [ht] at hc
        exact absurd hc (by decide)
      · intro hc
        rw [ht] at hc
        exact absurd hc (by decide)
      · intro _
        exact ⟨a, hmem, hid, by rw [hdescr]; rfl⟩
    · obtain ⟨ht, d, hmem, hid, hdescr⟩ := detectLoop_events_spec _ _ _ _ _ _ hd
      refine ⟨?_, ?_, ?_⟩
      · intro _
        rw [hdescr]
        rfl
      · intro hc
        rw [ht] at hc
        exact absurd hc (by decide)
      · intro hc
        rw [ht] at hc
        exact absurd hc (by decide)
    · obtain ⟨ht, m, hmem, hid, hdescr⟩ := detectLoop_events_spec _ _ _ _ _ _ hm
      refine ⟨?_, ?_, ?_⟩
      · intro hc
        rw [ht] at hc
        exact absurd hc (by decide)
      · intro _
        rw [hdescr]
        rfl
      · intro hc
        rw [ht] at hc
        exact absurd hc (by decide)

/-- Witness for `detect_event_source`: the diagnostic event emitted for
`diagD1` against a warm seen state carries source "whatsapp". -/
theorem detect_event_source_witness :
    (Event.mk .diagnostic "d1" (mkDiagDescr diagD1)).descr.source =
      some "whatsapp" := by
  have h := detect_event_source seenWarm snapDM
    (Event.mk .diagnostic "d1" (mkDiagDescr diagD1)) (by decide)
  exact h.1 rfl

/-- Claim C2 as frozen is false on the code: `Promise.all` rejects as soon
as any request rejects, so in a poll cycle where the appointments request
fails but the stats request succeeds, the stats store is NOT updated — the
whole prior state is retained (only `loading` is cleared). -/
theorem fetch_partial_cex :
    r0.statsR = .ok stats1 ∧
      (fetchData st0 r0).1.stats ≠ some stats1 ∧
      (fetchData st0 r0).1.stats = none ∧
      (fetchData st0 r0).1 = { st0 with loading := false } := by
  refine ⟨rfl, ?_, ?_, ?_⟩ <;> decide

/-- Claim C2 (amended): the poll cycle is all-or-nothing.  If any of the
eight fetches rejects, no store is updated — the prior snapshot is retained
for every resource, no events are emitted, and no exception escapes the
polling boundary (the catch block merely clears `loading`).  Only when every
fetch fulfills are the stores replaced. -/
theorem fetch_all_or_nothing (st : AppState) (r : FetchResults) :
    (∀ e, promiseAll8 r = .error e →
      (fetchData st r).1 = { st with loading := false } ∧
        (fetchData st r).2 = []) ∧
      (∀ d, promiseAll8 r = .ok d →
        (fetchData st r).1.stats = some d.stats ∧
          (fetchData st r).1.weeklyData = d.weekly ∧
          (fetchData st r).1.liveFeed = d.feed ∧
          (fetchData st r).1.patients = d.patients ∧
          (fetchData st r).1.appointments = d.appointments ∧
          (fetchData st r).1.diagnostics = d.diagnostics ∧
          (fetchData st r).1.admissions = d.admissions ∧
          (fetchData st r).1.todayAppointments = d.today ∧
          (fetchData st r).1.loading = false) := by
  constructor
  · intro e he
    unfold fetchData
    rw [he]
    exact ⟨rfl, rfl⟩
  · intro d hd
    unfold fetchData
    rw [hd]
    by_cases hl : st.loading <;> simp [hl]

/-- Witness for `fetch_all_or_nothing`: the mixed-outcome fetch `r0` leaves
the whole state (bar `loading`) untouched and emits nothing. -/
theorem fetch_all_or_nothing_witness :
    (fetchData st0 r0).1 = { st0 with loading := false } ∧
      (fetchData st0 r0).2 = [] := by
  have h := fetch_all_or_nothing st0 r0
  exact h.1 "network" (by decide)

theorem take_cons_take (e : α) (l : List α) (m : Nat) :
    (e :: l.take (m + 1)).take (m + 1) = (e :: l).take (m + 1) := by
  rw [List.take_succ_cons, List.take_succ_cons, List.take_take]
  have hmin : min m (m + 1) = m := by omega
  rw [hmin]

theorem take_append_left : ∀ (l1 l2 : List α) (n : Nat),
    n ≤ l1.length → (l1 ++ l2).take n = l1.take n := by
  intro l1
  induction l1 with
  | nil =>
    intro l2 n h
    simp at h
    simp [h]
  | cons a l ih =>
    intro l2 n h
    cases n with
    | zero => rfl
    | succ n =>
      rw [List.cons_append, List.take_succ_cons, List.take_succ_cons,
        ih l2 n (by simpa [Nat.succ_le_succ_iff] using h)]

theorem foldl_appendJournal (evs : List AppNotification) :
    ∀ j : List AppNotification,
      evs.foldl appendJournal (j.take 50) = (evs.reverse ++ j).take 50 := by
  induction evs with
  | nil => intro j; simp
  | cons e evs ih =>
    intro j
    rw [List.foldl_cons]
    have h1 : appendJournal (j.take 50) e = (e :: j).take 50 :=
      take_cons_take e j 49
    rw [h1, ih (e :: j), List.reverse_cons, List.append_assoc]
    rfl

theorem foldl_appendJournal_ne (evs : List AppNotification)
    (j : List AppNotification) (h : evs ≠ []) :
    evs.foldl appendJournal j = (evs.reverse ++ j).take 50 := by
  cases evs with
  | nil => cases h rfl
  | cons e evs =>
    rw [List.foldl_cons,
      show appendJournal j e = (e :: j).take 50 from rfl,
      foldl_appendJournal evs (e :: j), List.reverse_cons, List.append_assoc]
    rfl

/-- Claim C4: journal bound and ordering.  Appending always succeeds (it is
a total prepend-and-truncate); after appending 60 events to any journal, the
journal has length exactly 50 and holds the 50 most recently appended events
newest first; and a single append never leaves more than 50 entries.  The
journal component of `addNotification` is exactly this append. -/
theorem journal_bound (j0 : List AppNotification) (evs : List AppNotification)
    (h : evs.length = 60) :
    (evs.foldl appendJournal j0).length = 50 ∧
      evs.foldl appendJournal j0 = evs.reverse.take 50 ∧
      (∀ (l : List AppNotification) (n : AppNotification),
        appendJournal l n = (n :: l).take 50 ∧ (appendJournal l n).length ≤ 50) ∧
      (∀ (st : NotifState) (d : NotifDescr) (i : String) (now : Int),
        (addNotification st d i now).notifications =
          appendJournal st.notifications (mkNotif d i now)) := by
  have hne : evs ≠ [] := by
    intro hc
    rw [hc] at h
    simp at h
  have hfold := foldl_appendJournal_ne evs j0 hne
  have htake : (evs.reverse ++ j0).take 50 = evs.reverse.take 50 :=
    take_append_left _ _ _ (by rw [List.length_reverse, h]; omega)
  refine ⟨?_, ?_, ?_, ?_⟩
  · rw [hfold, htake, List.length_take, List.length_reverse, h]
    omega
  · rw [hfold, htake]
  · intro l n
    refine ⟨rfl, ?_⟩
    rw [appendJournal, List.length_take]
    exact Nat.min_le_left _ _
  · intro st d i now
    rfl

/-- Witness for `journal_bound`: sixty identical records folded into an
empty journal. -/
theorem journal_bound_witness :
    ((List.replicate 60 baseNotif).foldl appendJournal []).length = 50 ∧
      (List.replicate 60 baseNotif).foldl appendJournal [] =
        (List.replicate 60 baseNotif).reverse.take 50 := by
  have h := journal_bound [] (List.replicate 60 baseNotif) (by decide)
  exact ⟨h.1, h.2.1⟩

theorem markRead_not_mem (j : List AppNotification) (i : String) :
    (∀ n ∈ j, n.id ≠ i) → markRead j i = j := by
  induction j with
  | nil => intro _; rfl
  | cons n rest ih =>
    intro h
    simp only [markRead, List.map_cons]
    rw [if_neg (h n (List.mem_cons_self n rest))]
    have := ih fun m hm => h m (List.mem_cons_of_mem n hm)
    rw [markRead] at this
    rw [this]

theorem markRead_idem (j : List AppNotification) (i : String) :
    markRead (markRead j i) i = markRead j i := by
  unfold markRead
  rw [List.map_map]
  apply List.map_congr_left
  intro n _
  by_cases h : n.id = i <;> simp [h]

theorem unreadCount_cons (n : AppNotification) (j : List AppNotification) :
    unreadCount (n :: j) = (if n.read then 0 else 1) + unreadCount j := by
  by_cases hr : n.read
  · simp [unreadCount, List.filter_cons, hr]
  · simp [unreadCount, List.filter_cons, hr]
    omega

theorem markRead_cons (n : AppNotification) (rest : List AppNotification)
    (i : String) :
    markRead (n :: rest) i =
      (if n.id = i then { n with read := true } else n) :: markRead rest i := rfl

theorem markRead_unread_le (j : List AppNotification) (i : String) :
    unreadCount (markRead j i) ≤ unreadCount j := by
  induction j with
  | nil => exact Nat.le_refl _
  | cons n rest ih =>
    rw [markRead_cons, unreadCount_cons, unreadCount_cons]
    by_cases hid : n.id = i
    · rw [if_pos hid]
      have h0 :
          (if ({ n with read := true } : AppNotification).read then 0 else 1) = 0 :=
        rfl
      rw [h0]
      omega
    · rw [if_neg hid]
      omega

theorem markRead_unread_ge (j : List AppNotification) (i : String)
    (hnodup : (j.map (fun n => n.id)).Nodup) :
    unreadCount j ≤ unreadCount (markRead j i) + 1 := by
  induction j with
  | nil => simp [markRead, unreadCount]
  | cons n rest ih =>
    simp only [List.map_cons, List.nodup_cons] at hnodup
    obtain ⟨hn, hrest⟩ := hnodup
    rw [markRead_cons, unreadCount_cons, unreadCount_cons]
    by_cases hid : n.id = i
    · rw [if_pos hid]
      have heq : markRead rest i = rest := by
        apply markRead_not_mem
        intro m hm hmi
        exact hn (by rw [hid, ← hmi]; exact List.mem_map_of_mem _ hm)
      rw [heq]
      have h0 :
          (if ({ n with read := true } : AppNotification).read then 0 else 1) = 0 :=
        rfl
      rw [h0]
      have hb : (if n.read then 0 else 1) ≤ 1 := by
        by_cases hr : n.read <;> simp [hr]
      omega
    · rw [if_neg hid]
      have := ih hrest
      omega

/-- Claim C8 (amended): on every journal whose entry ids are pairwise
distinct — the data-model invariant for the locally generated unique ids —
`markRead` is idempotent, one or two calls change the unread count by at
most 1 in total, and marking an id not present in the journal leaves it
unchanged (a no-op, not an error). -/
theorem markRead_props (j : List AppNotification) (i : String)
    (hnodup : (j.map (fun n => n.id)).Nodup) :
    markRead (markRead j i) i = markRead j i ∧
      unreadCount (markRead j i) ≤ unreadCount j ∧
      unreadCount j ≤ unreadCount (markRead j i) + 1 ∧
      unreadCount (markRead (markRead j i) i) ≤ unreadCount j ∧
      unreadCount j ≤ unreadCount (markRead (markRead j i) i) + 1 ∧
      ((∀ n ∈ j, n.id ≠ i) → markRead j i = j) := by
  have hidem := markRead_idem j i
  have hle := markRead_unread_le j i
  have hge := markRead_unread_ge j i hnodup
  exact ⟨hidem, hle, hge, by rw [hidem]; exact hle, by rw [hidem]; exact hge,
    markRead_not_mem j i⟩

/-- Claim C8 as frozen is false on arbitrary journal states: with two unread
entries sharing the id "x", marking "x" read twice drops the unread count
from 2 to 0 — a total change of 2, not at most 1. -/
theorem markRead_cex :
    unreadCount [dupNotifA, dupNotifB] = 2 ∧
      unreadCount (markRead (markRead [dupNotifA, dupNotifB] "x") "x") = 0 := by
  constructor <;> decide

/-- Witness for `markRead_props` on a singleton journal. -/
theorem markRead_props_witness :
    markRead (markRead [dupNotifA] "x") "x" = markRead [dupNotifA] "x" ∧
      unreadCount [dupNotifA] ≤ unreadCount (markRead [dupNotifA] "x") + 1 := by
  have h := markRead_props [dupNotifA] "x" (by decide)
  exact ⟨h.1, h.2.2.1⟩

/-- Claim C9: toast/journal independence.  Dismissing a toast — manually or
through the 6-second expiry, which run the same filter — leaves the journal
list (hence every entry's read flag) unchanged, removes exactly the toasts
carrying the dismissed id, and a second removal of the same id is a no-op. -/
theorem toast_independence (st : NotifState) (i : String) :
    (dismissToast st i).notifications = st.notifications ∧
      (expireToast st i).notifications = st.notifications ∧
      dismissToast st i = expireToast st i ∧
      dismissToast (dismissToast st i) i = dismissToast st i ∧
      (∀ t ∈ st.toasts, t.id ≠ i → t ∈ (dismissToast st i).toasts) ∧
      (∀ t ∈ (dismissToast st i).toasts, t ∈ st.toasts ∧ t.id ≠ i) := by
  refine ⟨rfl, rfl, rfl, ?_, ?_, ?_⟩
  · unfold dismissToast
    simp only [List.filter_filter]
    congr 1
    apply List.filter_congr
    intro t _
    simp
  · intro t ht hne
    unfold dismissToast
    simp only [List.mem_filter]
    exact ⟨ht, by simpa using hne⟩
  · intro t ht
    unfold dismissToast at ht
    simp only [List.mem_filter] at ht
    exact ⟨ht.1, by simpa using ht.2⟩

/-- Witness for `toast_independence`: dismissing toast "t1" keeps the
journal entry with the same id (still unread) and is idempotent. -/
theorem toast_independence_witness :
    (dismissToast stToast "t1").notifications = [toastNotif] ∧
      dismissToast (dismissToast stToast "t1") "t1" = dismissToast stToast "t1" := by
  have h := toast_independence stToast "t1"
  exact ⟨h.1, h.2.2.2.1⟩

theorem subIndex_first (pat : List Char) :
    ∀ (cs : List Char) (i : Nat), subIndex pat cs = some i →
      listStartsWith pat (cs.drop i) = true ∧
      ∀ i2, i2 < i → listStartsWith pat (cs.drop i2) = false := by
  intro cs
  induction cs with
  | nil =>
    intro i h
    rw [subIndex] at h
    by_cases hp : listStartsWith pat []
    · rw [if_pos hp] at h
      injection h with h
      subst h
      exact ⟨hp, fun i2 h2 => by omega⟩
    · rw [if_neg hp] at h
      exact Option.noConfusion h
  | cons c rest ih =>
    intro i h
    rw [subIndex] at h
    by_cases hp : listStartsWith pat (c :: rest)
    · rw [if_pos hp] at h
      injection h with h
      subst h
      exact ⟨hp, fun i2 h2 => by omega⟩
    · rw [if_neg hp] at h
      cases hs : subIndex pat rest with
      | none =>
        rw [hs] at h
        exact Option.noConfusion h
      | some i' =>
        rw [hs, show (some i').map (· + 1) = some (i' + 1) from rfl] at h
        injection h with h
        subst h
        obtain ⟨h1, h2⟩ := ih i' hs
        refine ⟨by simpa [List.drop_succ_cons] using h1, ?_⟩
        intro i2 hi2
        cases i2 with
        | zero =>
          show listStartsWith pat (c :: rest) = false
          cases hlb : listStartsWith pat (c :: rest)
          · rfl
          · exact absurd hlb hp
        | succ i2 =>
          rw [List.drop_succ_cons]
          exact h2 i2 (by omega)

/-- Claim C7 (amended): for every input whose trimmed form contains the
literal marker "Options: ", normalization splits the trimmed string at the
marker's first occurrence; the result's text is the substring before it,
trimmed, and options is the substring after it split on ", ", each entry
trimmed with empty entries removed. -/
theorem delimiter_tier (raw : String) (idx : Nat) (hraw : raw ≠ "")
    (hidx : subIndex optionsMarker (jsTrim raw).data = some idx) :
    parseMessageDisplay raw =
      ⟨jsTrim (String.mk ((jsTrim raw).data.take idx)),
        some (((splitOnChars ", ".data ((jsTrim raw).data.length + 1)
            ((jsTrim raw).data.drop (idx + 9))).map
          (fun cs => jsTrim (String.mk cs))).filter (fun x => x ≠ ""))⟩ ∧
      listStartsWith optionsMarker ((jsTrim raw).data.drop idx) = true ∧
      (∀ i2, i2 < idx →
        listStartsWith optionsMarker ((jsTrim raw).data.drop i2) = false) := by
  obtain ⟨h1, h2⟩ := subIndex_first optionsMarker (jsTrim raw).data idx hidx
  refine ⟨?_, h1, h2⟩
  unfold parseMessageDisplay
  rw [if_neg hraw]
  simp only [hidx]

/-- Claim C7 as frozen is false on the code in one detail: on the spec's own
round-trip example the result text is NOT the raw substring before the
marker (which ends in a space) but its trimmed form. -/
theorem delimiter_tier_cex :
    (parseMessageDisplay "Please confirm. Options: Yes, No, Reschedule").text ≠
        String.mk ((jsTrim "Please confirm. Options: Yes, No, Reschedule").data.take 16) ∧
      String.mk ((jsTrim "Please confirm. Options: Yes, No, Reschedule").data.take 16) =
        "Please confirm. " ∧
      subIndex optionsMarker
          (jsTrim "Please confirm. Options: Yes, No, Reschedule").data = some 16 ∧
      (parseMessageDisplay "Please confirm. Options: Yes, No, Reschedule").text =
        "Please confirm." := by
  refine ⟨?_, ?_, ?_, ?_⟩ <;> decide

/-- Witness for `delimiter_tier`: the spec's round-trip example. -/
theorem delimiter_tier_witness :
    parseMessageDisplay "Please confirm. Options: Yes, No, Reschedule" =
      ⟨"Please confirm.", some ["Yes", "No", "Reschedule"]⟩ := by
  have h := delimiter_tier "Please confirm. Options: Yes, No, Reschedule" 16
    (by decide) (by decide)
  exact h.1.trans (by decide)

/-- Claim C6 (amended): for every input that enters the structured tier
(starts with a brace, has a text/buttons token, no delimiter marker) and
whose quote-normalized form both parses and extracts without throwing, the
result's text is the parsed text field trimmed, defaulting to
"Message sent" when absent or empty; options is each buttons entry's title
(falling back to id), trimmed, with empties filtered out — and options is
PRESENT (possibly as the empty list) whenever the buttons field is an
array, absent only when buttons is missing or null. -/
theorem structured_tier_post (raw : String) (j : Json) (r : ParsedMessage)
    (hraw : raw ≠ "")
    (hmark : subIndex optionsMarker (jsTrim raw).data = none)
    (hgate : structGate (jsTrim raw) = true)
    (hjson : jsonParse (jsNormalizeChars (jsTrim raw)) = some j)
    (htier : structuredTier j = some r) :
    parseMessageDisplay raw = r ∧
      (∀ t, textVal j = some t → r.text = jsOrDefault t "Message sent") ∧
      (∀ bs labels, propAccess j "buttons" = some (some (Json.arr bs)) →
        mapBtns bs = some labels →
        r.options = some (labels.filter (fun s => s ≠ ""))) ∧
      ((propAccess j "buttons" = some none ∨
          propAccess j "buttons" = some (some Json.null)) →
        r.options = none) := by
  have hpipe : parseMessageDisplay raw = r := by
    unfold parseMessageDisplay
    rw [if_neg hraw]
    simp [hmark, hgate, hjson, htier]
  refine ⟨hpipe, ?_⟩
  unfold structuredTier at htier
  cases htv : textVal j with
  | none =>
    rw [htv] at htier
    exact Option.noConfusion htier
  | some t0 =>
    rw [htv] at htier
    cases hb : propAccess j "buttons" with
    | none =>
      rw [hb] at htier
      exact Option.noConfusion htier
    | some bv =>
      rw [hb] at htier
      cases bv with
      | none =>
        injection htier with hr
        subst hr
        refine ⟨?_, ?_, ?_⟩
        · intro t ht
          injection ht with ht
          subst ht
          rfl
        · intro bs labels hb' _
          injection hb' with hb'
          exact Option.noConfusion hb'
        · intro _
          rfl
      | some v =>
        cases v with
        | null =>
          injection htier with hr
          subst hr
          refine ⟨?_, ?_, ?_⟩
          · intro t ht
            injection ht with ht
            subst ht
            rfl
          · intro bs labels hb' _
            injection hb' with hb'
            injection hb' with hb'
            exact Json.noConfusion hb'
          · intro _
            rfl
        | arr bs0 =>
          simp only [] at htier
          cases hm : mapBtns bs0 with
          | none =>
            rw [hm] at htier
            exact Option.noConfusion htier
          | some labels0 =>
            rw [hm] at htier
            injection htier with hr
            subst hr
            refine ⟨?_, ?_, ?_⟩
            · intro t ht
              injection ht with ht
              subst ht
              rfl
            · intro bs labels hb' hm'
              injection hb' with hb'
              injection hb' with hb'
              injection hb' with hb'
              subst hb'
              rw [hm] at hm'
              injection hm' with hm'
              subst hm'
              rfl
            · rintro (hb' | hb')
              · injection hb' with hb'
                exact Option.noConfusion hb'
              · injection hb' with hb'
                injection hb' with hb'
                exact Json.noConfusion hb'
        | bool b => exact Option.noConfusion htier
        | num n => exact Option.noConfusion htier
        | str s => exact Option.noConfusion htier
        | obj fs => exact Option.noConfusion htier

/-- Claim C6 as frozen is false in its options-absence clause: a structured
literal with an empty buttons array yields `options = some []`, a present
empty list, not an absent field. -/
theorem structured_tier_cex :
    parseMessageDisplay ex6cex = ⟨"Hi", some []⟩ ∧
      (parseMessageDisplay ex6cex).options ≠ none := by
  constructor <;> decide

/-- Witness for `structured_tier_post`: the spec's own round-trip example. -/
theorem structured_tier_post_witness :
    parseMessageDisplay ex6raw = ⟨"Hi there", some ["Book", "cancel"]⟩ := by
  have h := structured_tier_post ex6raw ex6json
    ⟨"Hi there", some ["Book", "cancel"]⟩
    (by decide) (by decide) (by decide) (by rfl) (by rfl)
  exact h.1

/-- Claim C5 (amended): the normalizer is total — every input yields a
text-plus-optional-options result and no tier raises.  When the structured
tier's parse fails, the result is the regex fallback: the regex text capture
when one matches, otherwise the trimmed raw input verbatim (with options
absent when no title captures are found). -/
theorem normalize_total (raw : String) (hraw : raw ≠ "")
    (hmark : subIndex optionsMarker (jsTrim raw).data = none)
    (hgate : structGate (jsTrim raw) = true)
    (hjson : jsonParse (jsNormalizeChars (jsTrim raw)) = none) :
    parseMessageDisplay raw = regexFallback (jsTrim raw) ∧
      (findTextCapture (jsTrim raw).data = none →
        findTitleCaps ((jsTrim raw).data.length + 1) (jsTrim raw).data = [] →
        parseMessageDisplay raw = ⟨jsTrim raw, none⟩) ∧
      (∀ s : String, ∃ t o, formatMessageForDisplay s = ⟨t, o⟩) := by
  have hpipe : parseMessageDisplay raw = regexFallback (jsTrim raw) := by
    unfold parseMessageDisplay
    rw [if_neg hraw]
    simp [hmark, hgate, hjson]
  refine ⟨hpipe, ?_, ?_⟩
  · intro hcap htitles
    rw [hpipe]
    unfold regexFallback
    rw [hcap, htitles]
    by_cases hs : jsTrim raw = "" <;> simp [jsOrDefault, hs]
  · intro s
    exact ⟨_, _, rfl⟩

/-- Claim C5's blanket "text is the raw input" clause is false: on the
malformed structured literal below the regex tier extracts the captured
text, which differs from the raw input. -/
theorem normalize_total_cex :
    (parseMessageDisplay "\x7b'text': 'hi' x").text ≠ "\x7b'text': 'hi' x" ∧
      parseMessageDisplay "\x7b'text': 'hi' x" = ⟨"hi", none⟩ := by
  constructor <;> decide

/-- Witness for `normalize_total`: the spec's unterminated-literal example
degrades to the raw input with no options and no exception. -/
theorem normalize_total_witness :
    parseMessageDisplay "\x7b'text': 'broken" = ⟨"\x7b'text': 'broken", none⟩ := by
  have h := normalize_total "\x7b'text': 'broken"
    (by decide) (by decide) (by decide) (by rfl)
  exact h.2.1 (by rfl) (by rfl)

end WAF
